import Mathlib

/-!
Verification development for the ldproxy linker proxy
(source: src/ldproxy/src/main.rs).

The program is a single linear pipeline: argument ingestion (one level of
shell response-file expansion), control-flag extraction, side-channel merge
from an esp-idf-sys build output file, optional duplicate-library collapsing,
and invocation of the real linker (directly or through a generated response
file).  Every stage below is a shallow embedding of the corresponding Rust
code; filesystem, environment and subprocess effects are passed in as
explicit oracle functions so that every definition stays executable.
-/

/-! ## String primitives

Rust str operations (starts_with, contains, rfind + byte slicing,
strip_prefix) are modelled at the character-list level.  All patterns used
by the program are ASCII, so Rust byte indices and char indices coincide.
-/

/-- Character-list version of Rust str::starts_with. -/
def startsWithL : List Char → List Char → Bool
  | _, [] => true
  | [], _ :: _ => false
  | a :: s, b :: p => if a = b then startsWithL s p else false

/-- Rust str::starts_with on strings. -/
def startsWithS (s pat : String) : Bool := startsWithL s.data pat.data

/-- Drop the first n characters; models Rust slicing past an ASCII marker. -/
def dropS (s : String) (n : Nat) : String := String.mk (s.data.drop n)

/-- Character-list version of Rust str::contains. -/
def containsL : List Char → List Char → Bool
  | [], pat => startsWithL [] pat
  | a :: rest, pat => if startsWithL (a :: rest) pat then true else containsL rest pat

/-- Characters strictly before the last occurrence of pat, if pat occurs.
Models Rust s.rfind(pat) followed by the slice s[..pos]. -/
def lastOccSplit : List Char → List Char → Option (List Char)
  | [], pat => if startsWithL [] pat = true then some [] else none
  | a :: rest, pat =>
    match lastOccSplit rest pat with
    | some t => some (a :: t)
    | none => if startsWithL (a :: rest) pat = true then some [] else none

/-- Rust str::contains on strings. -/
def containsSub (s pat : String) : Bool := containsL s.data pat.data

/-- Rust s.rfind(pat) combined with the slice s[..pos]. -/
def rfindPre (s pat : String) : Option String :=
  (lastOccSplit s.data pat.data).map String.mk

/-- The token truncated at the last occurrence of pat (the token itself when
pat does not occur); used only to state the inference specification. -/
def truncAtLast (s pat : String) : String :=
  String.mk ((lastOccSplit s.data pat.data).getD s.data)

/-- Boolean membership in a list of strings. -/
def memS (a : String) : List String → Bool
  | [] => false
  | b :: rest => if b = a then true else memS a rest

/-- Number of occurrences of a string in a list. -/
def countS (a : String) : List String → Nat
  | [] => 0
  | b :: rest => (if b = a then 1 else 0) + countS a rest

/-! ## Argument ingestor (fn args, main.rs lines 284-312)

For each raw argument: a leading '@' whose remainder names an existing file
is expanded by reading the file and tokenizing its contents; a '@' argument
naming a missing path passes through; reading an existing file can fail and
the error is propagated (the Rust `?`).  The filesystem (exF: existence,
rdF: read) and the shell tokenizer (UnixCommandArgs, rendered abstract as
tokF) are oracle parameters.
-/

/-- Behavior of one loop iteration of fn args on a single raw argument. -/
def expandOne (exF : String → Bool) (rdF : String → Except String String)
    (tokF : String → List String) (a : String) : Except String (List String) :=
  if startsWithS a "@" = true then
    if exF (dropS a 1) = true then
      match rdF (dropS a 1) with
      | .error e => .error e
      | .ok c => .ok (tokF c)
    else .ok [a]
  else .ok [a]

/-- The full loop of fn args: left-to-right, first read error aborts. -/
def expandArgs (exF : String → Bool) (rdF : String → Except String String)
    (tokF : String → List String) : List String → Except String (List String)
  | [] => .ok []
  | a :: rest =>
    if startsWithS a "@" = true then
      if exF (dropS a 1) = true then
        match rdF (dropS a 1) with
        | .error e => .error e
        | .ok c =>
          match expandArgs exF rdF tokF rest with
          | .error e => .error e
          | .ok r => .ok (tokF c ++ r)
      else
        match expandArgs exF rdF tokF rest with
        | .error e => .error e
        | .ok r => .ok (a :: r)
    else
      match expandArgs exF rdF tokF rest with
      | .error e => .error e
      | .ok r => .ok (a :: r)

/-- Specification-side formulation of the ingestor (spec 4.1): each original
argument is expanded independently by expandOne, the token lists are
concatenated in order, and any per-argument error is fatal.  Tokens produced
by an expansion are never fed back through expandOne. -/
def expandSpec (exF : String → Bool) (rdF : String → Except String String)
    (tokF : String → List String) (argsv : List String) : Except String (List String) :=
  argsv.foldr
    (fun a acc =>
      match expandOne exF rdF tokF a, acc with
      | .error e, _ => .error e
      | .ok _, .error e => .error e
      | .ok ts, .ok r => .ok (ts ++ r))
    (.ok [])

/-! ## Side-channel line parsing (fn read_esp_idf_sys_link_args, lines 35-59)

The output file is parsed line by line.  A line of the form
cargo:rustc-link-arg=ARG is a directive; other lines are ignored (they do
not reset skip_next).  The directive "--ldproxy-cwd" marks the next
directive as the working directory; the code checks skip_next before it
checks for "--ldproxy-linker", so the latter marker also routes its payload
into the working directory.  Directives starting with "--ldproxy" are not
appended to the collected link args.
-/

/-- The directive line marker written by cargo build scripts. -/
def linkArgPre : String := "cargo:rustc-link-arg="

/-- Rust line.strip_prefix("cargo:rustc-link-arg="). -/
def stripDirective (line : String) : Option String :=
  if startsWithS line linkArgPre = true then some (dropS line linkArgPre.data.length)
  else none

/-- The loop body of read_esp_idf_sys_link_args: state is skip_next and the
current working_dir; returns the collected link args (in file order) and the
final working_dir. -/
def goLines : List String → Bool → Option String → List String × Option String
  | [], _, wd => ([], wd)
  | l :: rest, skip, wd =>
    match stripDirective l with
    | none => goLines rest skip wd
    | some a =>
      if a = "--ldproxy-cwd" then goLines rest true wd
      else if skip = true then goLines rest false (some a)
      else if a = "--ldproxy-linker" then goLines rest true wd
      else if startsWithS a "--ldproxy" = true then goLines rest skip wd
      else
        let r := goLines rest skip wd
        (a :: r.1, r.2)

/-- Parse a side-channel output file given as its list of lines. -/
def processLines (lines : List String) : List String × Option String :=
  goLines lines false none

/-! ## Linker resolution (main.rs lines 100-132) -/

/-- The well-known linker basenames probed on PATH, in program order. -/
def knownLinkers : List String :=
  ["riscv32-esp-elf-gcc", "riscv32-unknown-elf-gcc", "riscv64-unknown-elf-gcc"]

/-- The linker resolution chain of main: last value of the linker flag,
else the three target CC variables, else CC, else the PATH probe.  envv is
env::var (some = set) and pathHas is which::which(..).is_ok(). -/
def resolveLinker (vals : List String) (envv : String → Option String)
    (pathHas : String → Bool) : Option String :=
  match vals.getLast? with
  | some l => some l
  | none =>
    match envv "CC_riscv32imafc_esp_espidf" with
    | some c => some c
    | none =>
      match envv "CC_riscv32imac_esp_espidf" with
      | some c => some c
      | none =>
        match envv "CC_riscv32imc_esp_espidf" with
        | some c => some c
        | none =>
          match envv "CC" with
          | some c => some c
          | none => knownLinkers.find? pathHas

/-- The target-specific environment variables, in consultation order
(specification-side description of the fallback chain). -/
def targetCcVars : List String :=
  ["CC_riscv32imafc_esp_espidf", "CC_riscv32imac_esp_espidf", "CC_riscv32imc_esp_espidf"]

/-- Specification-side formulation of resolution (spec 4.2): flag value
last-wins, then the ordered target variables, then the generic compiler
variable, then the well-known basenames on PATH. -/
def specResolve (vals : List String) (envv : String → Option String)
    (pathHas : String → Bool) : Option String :=
  match vals.getLast? with
  | some v => some v
  | none =>
    match targetCcVars.findSome? envv with
    | some c => some c
    | none =>
      match envv "CC" with
      | some c => some c
      | none => knownLinkers.find? pathHas

/-- Modelled from the spec: the spelling of the linker-path control flag
(embuild::build::LDPROXY_LINKER_ARG, whose definition is not part of this
source tree); the spelling matches the sentinel compared against in
read_esp_idf_sys_link_args. -/
def ldproxyLinkerFlag : String := "--ldproxy-linker"

/-- The fatal configuration message of main when no linker resolves; it
names the missing control flag.  Modelled from the spec: the exact flag
rendering comes from embuild's ArgDef::format, not in this source tree. -/
def missingLinkerMsg : String :=
  "Cannot locate argument '" ++ ldproxyLinkerFlag ++
    " <linker>' and no linker found in environment or PATH"

/-! ## Build-target directory inference and side-channel merge
(main.rs lines 141-177) -/

/-- The token test of the inference loop: contains both markers. -/
def tdPred (a : String) : Bool :=
  containsSub a "/target/" && containsSub a "/deps/"

/-- The inference loop of main: the first token containing both "/target/"
and "/deps/" is truncated at the last occurrence of "/deps/" (rfind) and the
loop breaks. -/
def inferTargetDirLoop : List String → Option String
  | [] => none
  | a :: rest =>
    if tdPred a = true then
      match rfindPre a "/deps/" with
      | some p => some p
      | none => inferTargetDirLoop rest
    else inferTargetDirLoop rest

/-- Specification-side formulation of the inference: the first matching
token, truncated at its last "/deps/" occurrence. -/
def inferSpec (argsv : List String) : Option String :=
  (argsv.find? tdPred).map (fun a => truncAtLast a "/deps/")

/-- Application of one side-channel read result in main (lines 156-177):
an error is only logged; a working directory found there overrides the
current one; a nonempty argument list is appended after the current args. -/
def mergeApply (argsv : List String) (cwd : Option String)
    (res : Except String (List String × Option String)) : List String × Option String :=
  match res with
  | .error _ => (argsv, cwd)
  | .ok (ea, ec) =>
    let cwd2 := match ec with | some w => some w | none => cwd
    let args2 := if ea.isEmpty then argsv else argsv ++ ea
    (args2, cwd2)

/-- The merge stage of main: a no-op unless a target directory is inferred;
readSide is the oracle for read_esp_idf_sys_link_args on that directory. -/
def mergeStage (readSide : String → Except String (List String × Option String))
    (argsv : List String) (cwd : Option String) : List String × Option String :=
  match inferTargetDirLoop argsv with
  | none => (argsv, cwd)
  | some td => mergeApply argsv cwd (readSide td)

/-! ## Duplicate-library collapser (main.rs lines 179-211)

First pass: count every occurrence of each token starting with "-l" (the
HashMap is modelled as a count function; membership = positive count, entry
removal = count reaching zero).  Second pass: for each token present in the
map decrement its count, and emit the token only when it is no longer in the
map afterwards, so only the final occurrence of each library token survives.
-/

/-- Occurrence counts of library-flag tokens (the first loop). -/
def countLibs : List String → String → Nat
  | [], _ => 0
  | b :: rest, x => (if startsWithS b "-l" = true ∧ b = x then 1 else 0) + countLibs rest x

/-- Decrement the count of one key (the map update of the second loop). -/
def decOne (m : String → Nat) (a : String) : String → Nat :=
  fun x => if x = a then m x - 1 else m x

/-- The second loop of the collapser.  When the token is in the map
(positive count) it is decremented; the token is pushed exactly when it is
absent from the map after the update. -/
def dedupWalk : List String → (String → Nat) → List String
  | [], _ => []
  | a :: rest, m =>
    if 0 < m a then
      if 0 < decOne m a a then dedupWalk rest (decOne m a)
      else a :: dedupWalk rest (decOne m a)
    else a :: dedupWalk rest m

/-- The whole collapser body (lines 182-208). -/
def dedup (argsv : List String) : List String := dedupWalk argsv (countLibs argsv)

/-- The flag-gated collapser (lines 179 and 209-211). -/
def collapser (toggle : Bool) (argsv : List String) : List String :=
  if toggle then dedup argsv else argsv

/-- Specification-side formulation (spec 4.4): keep a token unless it is a
library-flag token that occurs again later in the list, so exactly the last
occurrence of each distinct library token survives and nothing else changes. -/
def lastOcc : List String → List String
  | [] => []
  | a :: rest =>
    if startsWithS a "-l" = true ∧ memS a rest = true then lastOcc rest
    else a :: lastOcc rest

/-- The non-library tokens of a list, in order. -/
def filterNonLib (l : List String) : List String :=
  l.filter (fun a => !startsWithS a "-l")

/-! ## Invoker (main.rs lines 213-276)

The subprocess and filesystem are oracles: wOk is whether fs::write of the
response file succeeds, spawn is the result of cmd.output().  The record
returned describes the observable trace: the invocation shape handed to the
linker, the content written to the response file (if any), whether the
response file still exists when main returns, and main's result.  Standard
output and error of the linker are modelled as already-decoded text.
-/

/-- How the real linker is invoked. -/
inductive Invocation where
  | direct : List String → Invocation
  | viaFile : String → Invocation

/-- The captured result of a completed linker subprocess. -/
structure LinkerOut where
  success : Bool
  statusDesc : String
  stdout : String
  stderr : String

/-- Observable outcome of the invocation stage. -/
structure InvokeOut where
  inv : Invocation
  written : Option String
  fileLeft : Bool
  result : Except String Unit

/-- The response file path: temp_dir joined with ldproxy-<pid>.rsp
(line 227). -/
def respFile (tempDir : String) (pid : Nat) : String :=
  tempDir ++ "/ldproxy-" ++ toString pid ++ ".rsp"

/-- The response file content: args joined with newlines (line 228). -/
def respContent (argsv : List String) : String :=
  String.intercalate "\n" argsv

/-- The result classification of main after cmd.output() (lines 251-276):
a spawn error propagates via the Rust question mark; a non-success exit is
fatal with a message carrying the status description and the captured
stderr verbatim; otherwise the LDPROXY_LINK_FAIL test hook forces failure. -/
def invokeResult (linker : String) (spawn : Except String LinkerOut)
    (linkFail : Bool) : Except String Unit :=
  match spawn with
  | .error e => .error e
  | .ok out =>
    if out.success = false then
      .error ("Linker " ++ linker ++ " failed: " ++ out.statusDesc ++
        "\nSTDERR OUTPUT:\n" ++ out.stderr)
    else if linkFail = true then .error "Failure requested"
    else .ok ()

/-- The invocation stage.  More than 500 args selects the response file
(line 222); a failed write falls back to direct args (line 230-232).  The
cleanup (lines 253-257) runs only after cmd.output() returns, so on a spawn
error the question mark propagates first and a written response file is
left behind; on any completed subprocess the file is removed before the
status is inspected. -/
def invoke (tempDir : String) (pid : Nat) (wOk : Bool) (spawn : Except String LinkerOut)
    (linkFail : Bool) (linker : String) (argsv : List String) : InvokeOut :=
  if 500 < argsv.length then
    if wOk then
      ⟨.viaFile ("@" ++ respFile tempDir pid), some (respContent argsv),
        (match spawn with | .error _ => true | .ok _ => false),
        invokeResult linker spawn linkFail⟩
    else
      ⟨.direct argsv, none, false, invokeResult linker spawn linkFail⟩
  else
    ⟨.direct argsv, none, false, invokeResult linker spawn linkFail⟩

/-- Boolean error test on main's result type. -/
def isErr (r : Except String Unit) : Bool :=
  match r with
  | .error _ => true
  | .ok _ => false

/-! ## Control-flag extraction and the whole pipeline -/

/-- The values extracted from the token stream by the control-flag
extractor. -/
structure Extracted where
  rest : List String
  linkerVals : List String
  dedupOn : Bool
  cwdVals : List String

/-- Modelled from the spec: the control-flag extractor (embuild's ParseFrom
implementation is not part of this source tree).  Spec 4.2 and 9: an
explicit state machine over the token stream; a recognized value-taking
flag consumes itself and the next token, the dedup toggle is set by mere
presence, all other tokens pass through in order, and the last occurrence
of a value-taking flag wins (via getLast? on the collected values). -/
def extractFlags : List String → Extracted
  | [] => ⟨[], [], false, []⟩
  | "--ldproxy-linker" :: v :: rest =>
    let e := extractFlags rest
    ⟨e.rest, v :: e.linkerVals, e.dedupOn, e.cwdVals⟩
  | "--ldproxy-cwd" :: v :: rest =>
    let e := extractFlags rest
    ⟨e.rest, e.linkerVals, e.dedupOn, v :: e.cwdVals⟩
  | "--ldproxy-dedup-libs" :: rest =>
    let e := extractFlags rest
    ⟨e.rest, e.linkerVals, true, e.cwdVals⟩
  | a :: rest =>
    let e := extractFlags rest
    ⟨a :: e.rest, e.linkerVals, e.dedupOn, e.cwdVals⟩

/-- Observable outcome of one whole run: whether a linker subprocess was
spawned, and main's result. -/
structure RunOut where
  spawned : Bool
  result : Except String Unit

/-- The whole pipeline of main, in program order: ingest, extract flags,
resolve the linker (fatal before any spawn when unresolved), infer the
target directory and merge the side channel, collapse duplicates when
requested, and invoke. -/
def runPipeline (exF : String → Bool) (rdF : String → Except String String)
    (tokF : String → List String) (envv : String → Option String)
    (pathHas : String → Bool)
    (readSide : String → Except String (List String × Option String))
    (tempDir : String) (pid : Nat) (wOk : Bool) (spawn : Except String LinkerOut)
    (linkFail : Bool) (rawArgs : List String) : RunOut :=
  match expandArgs exF rdF tokF rawArgs with
  | .error e => ⟨false, .error e⟩
  | .ok toks =>
    let ex := extractFlags toks
    match resolveLinker ex.linkerVals envv pathHas with
    | none => ⟨false, .error missingLinkerMsg⟩
    | some linker =>
      let st := mergeStage readSide ex.rest ex.cwdVals.getLast?
      let finalArgs := collapser ex.dedupOn st.1
      ⟨true, (invoke tempDir pid wOk spawn linkFail linker finalArgs).result⟩

/-! ## Lemmas about the collapser -/

/-- A token that is not a library flag is never counted. -/
theorem countLibs_zero_of_not_lib (l : List String) (a : String)
    (ha : startsWithS a "-l" = false) : countLibs l a = 0 := by
  induction l with
  | nil => rfl
  | cons b rest ih =>
    show (if startsWithS b "-l" = true ∧ b = a then 1 else 0) + countLibs rest a = 0
    have hcond : ¬(startsWithS b "-l" = true ∧ b = a) := by
      rintro ⟨hb, rfl⟩
      rw [ha] at hb
      exact Bool.false_ne_true hb
    rw [if_neg hcond, ih]

/-- For a library-flag token, a positive count is exactly membership. -/
theorem countLibs_pos_iff (l : List String) (a : String)
    (ha : startsWithS a "-l" = true) : 0 < countLibs l a ↔ memS a l = true := by
  induction l with
  | nil => simp [countLibs, memS]
  | cons b rest ih =>
    show 0 < (if startsWithS b "-l" = true ∧ b = a then 1 else 0) + countLibs rest a ↔
      memS a (b :: rest) = true
    by_cases hb : b = a
    · subst hb
      rw [if_pos ⟨ha, rfl⟩]
      simp [memS]
    · rw [if_neg (fun h => hb h.2)]
      have hmem : memS a (b :: rest) = memS a rest := by simp [memS, hb]
      rw [hmem, Nat.zero_add]
      exact ih

/-- The collapser's two-pass walk computes the keep-the-last-occurrence
function, given that the count map matches the remaining suffix. -/
theorem dedupWalk_eq_lastOcc (l : List String) : ∀ (m : String → Nat),
    (∀ x, m x = countLibs l x) → dedupWalk l m = lastOcc l := by
  induction l with
  | nil => intro m _; rfl
  | cons a rest ih =>
    intro m h
    by_cases ha : startsWithS a "-l" = true
    · have hma : m a = countLibs rest a + 1 := by
        rw [h a]
        show (if startsWithS a "-l" = true ∧ a = a then 1 else 0) + countLibs rest a =
          countLibs rest a + 1
        rw [if_pos ⟨ha, rfl⟩]
        omega
      have hpos : 0 < m a := by omega
      have hdec : ∀ x, decOne m a x = countLibs rest x := by
        intro x
        by_cases hx : x = a
        · show (if x = a then m x - 1 else m x) = countLibs rest x
          rw [if_pos hx, hx, hma]
          omega
        · show (if x = a then m x - 1 else m x) = countLibs rest x
          rw [if_neg hx, h x]
          show (if startsWithS a "-l" = true ∧ a = x then 1 else 0) + countLibs rest x =
            countLibs rest x
          rw [if_neg (fun hcc => hx hcc.2.symm)]
          omega
      have hstep : dedupWalk (a :: rest) m =
          if 0 < decOne m a a then dedupWalk rest (decOne m a)
          else a :: dedupWalk rest (decOne m a) := by
        show (if 0 < m a then
            if 0 < decOne m a a then dedupWalk rest (decOne m a)
            else a :: dedupWalk rest (decOne m a)
          else a :: dedupWalk rest m) = _
        rw [if_pos hpos]
      have hval : decOne m a a = countLibs rest a := hdec a
      by_cases hmem : memS a rest = true
      · have hp2 : 0 < decOne m a a := by
          rw [hval]
          exact (countLibs_pos_iff rest a ha).mpr hmem
        rw [hstep, if_pos hp2, ih (decOne m a) hdec]
        simp [lastOcc, ha, hmem]
      · have hmf : memS a rest = false := by simpa using hmem
        have hz : countLibs rest a = 0 := by
          by_cases h0 : 0 < countLibs rest a
          · exact absurd ((countLibs_pos_iff rest a ha).mp h0) (by simp [hmf])
          · omega
        have hnp : ¬ 0 < decOne m a a := by
          rw [hval, hz]
          omega
        rw [hstep, if_neg hnp, ih (decOne m a) hdec]
        simp [lastOcc, hmf]
    · have haf : startsWithS a "-l" = false := by simpa using ha
      have hm0 : m a = 0 := by
        rw [h a]
        show (if startsWithS a "-l" = true ∧ a = a then 1 else 0) + countLibs rest a = 0
        rw [if_neg (fun hcc => absurd hcc.1 (by simp [haf])),
          countLibs_zero_of_not_lib rest a haf]
      have hnp : ¬ 0 < m a := by omega
      have hstep : dedupWalk (a :: rest) m = a :: dedupWalk rest m := by
        show (if 0 < m a then
            if 0 < decOne m a a then dedupWalk rest (decOne m a)
            else a :: dedupWalk rest (decOne m a)
          else a :: dedupWalk rest m) = _
        rw [if_neg hnp]
      have h2 : ∀ x, m x = countLibs rest x := by
        intro x
        rw [h x]
        show (if startsWithS a "-l" = true ∧ a = x then 1 else 0) + countLibs rest x =
          countLibs rest x
        rw [if_neg (fun hcc => absurd hcc.1 (by simp [haf]))]
        omega
      rw [hstep, ih m h2]
      simp [lastOcc, haf]

/-- The collapser computes the keep-the-last-occurrence function. -/
theorem dedup_eq_lastOcc (argsv : List String) : dedup argsv = lastOcc argsv :=
  dedupWalk_eq_lastOcc argsv (countLibs argsv) (fun _ => rfl)

/-- Absence from a list is preserved by the collapse. -/
theorem memS_lastOcc_eq_false (a : String) (l : List String)
    (h : memS a l = false) : memS a (lastOcc l) = false := by
  induction l with
  | nil => simpa [lastOcc] using h
  | cons b rest ih =>
    have hb : ¬(b = a) := by
      intro hba
      simp [memS, hba] at h
    have hr : memS a rest = false := by
      simpa [memS, hb] using h
    by_cases hc : startsWithS b "-l" = true ∧ memS b rest = true
    · simpa [lastOcc, hc] using ih hr
    · simp [lastOcc, hc, memS, hb]
      exact ih hr

/-- A string absent from a list occurs zero times in it. -/
theorem countS_eq_zero (a : String) (l : List String) (h : memS a l = false) :
    countS a l = 0 := by
  induction l with
  | nil => rfl
  | cons b rest ih =>
    have hb : ¬(b = a) := by
      intro hba
      simp [memS, hba] at h
    have hr : memS a rest = false := by
      simpa [memS, hb] using h
    show (if b = a then 1 else 0) + countS a rest = 0
    rw [if_neg hb, ih hr]

/-- Every library token present in the input occurs exactly once in the
collapsed output. -/
theorem countS_lastOcc (a : String) (l : List String)
    (ha : startsWithS a "-l" = true) (hm : memS a l = true) :
    countS a (lastOcc l) = 1 := by
  induction l with
  | nil => simp [memS] at hm
  | cons b rest ih =>
    by_cases hb : b = a
    · subst hb
      by_cases hc : startsWithS b "-l" = true ∧ memS b rest = true
      · simpa [lastOcc, hc] using ih hc.2
      · have hr : memS b rest = false := by
          by_cases h2 : memS b rest = true
          · exact absurd ⟨ha, h2⟩ hc
          · simpa using h2
        have hz : countS b (lastOcc rest) = 0 :=
          countS_eq_zero _ _ (memS_lastOcc_eq_false _ _ hr)
        simp [lastOcc, hc, countS, hz]
    · have hr : memS a rest = true := by
        simpa [memS, hb] using hm
      by_cases hc : startsWithS b "-l" = true ∧ memS b rest = true
      · simpa [lastOcc, hc] using ih hr
      · simp [lastOcc, hc, countS, hb]
        exact ih hr

/-- The non-library tokens are untouched by the collapse. -/
theorem filterNonLib_lastOcc (l : List String) :
    filterNonLib (lastOcc l) = filterNonLib l := by
  induction l with
  | nil => rfl
  | cons a rest ih =>
    by_cases hc : startsWithS a "-l" = true ∧ memS a rest = true
    · have hdrop : lastOcc (a :: rest) = lastOcc rest := by
        simp [lastOcc, hc]
      have hfa : (!startsWithS a "-l") = false := by
        rw [hc.1]
        rfl
      rw [hdrop, ih]
      show filterNonLib rest = List.filter (fun a => !startsWithS a "-l") (a :: rest)
      rw [List.filter_cons, hfa]
      rfl
    · have hkeep : lastOcc (a :: rest) = a :: lastOcc rest := by
        simp [lastOcc, hc]
      rw [hkeep]
      show List.filter (fun a => !startsWithS a "-l") (a :: lastOcc rest) =
        List.filter (fun a => !startsWithS a "-l") (a :: rest)
      rw [List.filter_cons, List.filter_cons]
      by_cases hl2 : startsWithS a "-l" = true
      · have hfa : (!startsWithS a "-l") = false := by
          rw [hl2]
          rfl
        rw [hfa]
        exact ih
      · have hl3 : startsWithS a "-l" = false := by simpa using hl2
        have hfa : (!startsWithS a "-l") = true := by
          rw [hl3]
          rfl
        rw [hfa]
        simp only [if_pos]
        rw [show List.filter (fun a => !startsWithS a "-l") (lastOcc rest) =
          List.filter (fun a => !startsWithS a "-l") rest from ih]

/-- The keep-the-last-occurrence function is idempotent. -/
theorem lastOcc_idem (l : List String) : lastOcc (lastOcc l) = lastOcc l := by
  induction l with
  | nil => rfl
  | cons a rest ih =>
    by_cases hc : startsWithS a "-l" = true ∧ memS a rest = true
    · simpa [lastOcc, hc] using ih
    · have hkeep : lastOcc (a :: rest) = a :: lastOcc rest := by
        simp [lastOcc, hc]
      rw [hkeep]
      have hc2 : ¬(startsWithS a "-l" = true ∧ memS a (lastOcc rest) = true) := by
        rintro ⟨h1, h2⟩
        apply hc
        refine ⟨h1, ?_⟩
        by_cases hmm : memS a rest = true
        · exact hmm
        · have hmf : memS a rest = false := by simpa using hmm
          rw [memS_lastOcc_eq_false a rest hmf] at h2
          cases h2
      have : lastOcc (a :: lastOcc rest) = a :: lastOcc (lastOcc rest) := by
        simp [lastOcc, hc2]
      rw [this, ih]

/-! ## Lemmas about the argument ingestor -/

/-- The ingestor loop agrees with the per-argument specification form. -/
theorem expandArgs_eq_spec (exF : String → Bool) (rdF : String → Except String String)
    (tokF : String → List String) (argsv : List String) :
    expandArgs exF rdF tokF argsv = expandSpec exF rdF tokF argsv := by
  induction argsv with
  | nil => rfl
  | cons a rest ih =>
    have hsp : expandSpec exF rdF tokF (a :: rest) =
        match expandOne exF rdF tokF a, expandSpec exF rdF tokF rest with
        | .error e, _ => .error e
        | .ok _, .error e => .error e
        | .ok ts, .ok r => .ok (ts ++ r) := by
      simp [expandSpec, List.foldr_cons]
    rw [hsp]
    by_cases h1 : startsWithS a "@" = true
    · by_cases h2 : exF (dropS a 1) = true
      · cases hr : rdF (dropS a 1) with
        | error e => simp [expandArgs, expandOne, h1, h2, hr]
        | ok c =>
          rw [← ih]
          cases hrest : expandArgs exF rdF tokF rest with
          | error e => simp [expandArgs, expandOne, h1, h2, hr, hrest]
          | ok r => simp [expandArgs, expandOne, h1, h2, hr, hrest]
      · rw [← ih]
        cases hrest : expandArgs exF rdF tokF rest with
        | error e => simp [expandArgs, expandOne, h1, h2, hrest]
        | ok r => simp [expandArgs, expandOne, h1, h2, hrest]
    · rw [← ih]
      cases hrest : expandArgs exF rdF tokF rest with
      | error e => simp [expandArgs, expandOne, h1, hrest]
      | ok r => simp [expandArgs, expandOne, h1, hrest]

/-- A read error on any member argument makes the whole ingestion fail. -/
theorem expandArgs_error_of_mem (exF : String → Bool) (rdF : String → Except String String)
    (tokF : String → List String) (argsv : List String) (a : String) (e : String)
    (hm : memS a argsv = true) (hone : expandOne exF rdF tokF a = .error e) :
    ∃ e2, expandArgs exF rdF tokF argsv = .error e2 := by
  induction argsv with
  | nil => simp [memS] at hm
  | cons b rest ih =>
    by_cases hb : b = a
    · subst hb
      have h1 : startsWithS b "@" = true := by
        by_cases h : startsWithS b "@" = true
        · exact h
        · simp [expandOne, h] at hone
      have h2 : exF (dropS b 1) = true := by
        by_cases h : exF (dropS b 1) = true
        · exact h
        · simp [expandOne, h1, h] at hone
      cases hr : rdF (dropS b 1) with
      | error e3 => exact ⟨e3, by simp [expandArgs, h1, h2, hr]⟩
      | ok c => simp [expandOne, h1, h2, hr] at hone
    · have hm2 : memS a rest = true := by
        simpa [memS, hb] using hm
      obtain ⟨e2, he2⟩ := ih hm2
      by_cases h1 : startsWithS b "@" = true
      · by_cases h2 : exF (dropS b 1) = true
        · cases hr : rdF (dropS b 1) with
          | error e3 => exact ⟨e3, by simp [expandArgs, h1, h2, hr]⟩
          | ok c => exact ⟨e2, by simp [expandArgs, h1, h2, hr, he2]⟩
        · exact ⟨e2, by simp [expandArgs, h1, h2, he2]⟩
      · exact ⟨e2, by simp [expandArgs, h1, he2]⟩

/-! ## Lemmas about inference and resolution -/

/-- A contained pattern always yields a last-occurrence split. -/
theorem lastOccSplit_isSome_of_contains (s pat : List Char)
    (h : containsL s pat = true) : (lastOccSplit s pat).isSome = true := by
  induction s with
  | nil =>
    have hsw : startsWithL [] pat = true := by simpa [containsL] using h
    simp [lastOccSplit, hsw]
  | cons a rest ih =>
    cases hr : lastOccSplit rest pat with
    | some t => simp [lastOccSplit, hr]
    | none =>
      have hnot : containsL rest pat = false := by
        by_cases h2 : containsL rest pat = true
        · have := ih h2
          rw [hr] at this
          cases this
        · simpa using h2
      have hsw : startsWithL (a :: rest) pat = true := by
        by_cases h3 : startsWithL (a :: rest) pat = true
        · exact h3
        · have h3f : startsWithL (a :: rest) pat = false := by simpa using h3
          rw [containsL, h3f] at h
          simp at h
          rw [h] at hnot
          cases hnot
      simp [lastOccSplit, hr, hsw]

/-- On a token containing the pattern, rfind plus slicing produces exactly
the truncation at the last occurrence. -/
theorem rfindPre_eq_trunc (a pat : String) (h : containsSub a pat = true) :
    rfindPre a pat = some (truncAtLast a pat) := by
  obtain ⟨l, hl⟩ := Option.isSome_iff_exists.mp
    (lastOccSplit_isSome_of_contains a.data pat.data h)
  simp [rfindPre, truncAtLast, hl]

/-- The inference loop computes the first-matching-token truncation. -/
theorem inferTargetDirLoop_eq_spec (argsv : List String) :
    inferTargetDirLoop argsv = inferSpec argsv := by
  induction argsv with
  | nil => rfl
  | cons a rest ih =>
    by_cases h : tdPred a = true
    · have h2 : containsSub a "/deps/" = true := by
        have hh : containsSub a "/target/" = true ∧ containsSub a "/deps/" = true := by
          simpa [tdPred] using h
        exact hh.2
      simp [inferTargetDirLoop, inferSpec, List.find?, h, rfindPre_eq_trunc a "/deps/" h2]
    · have hf : tdPred a = false := by simpa using h
      simp only [inferTargetDirLoop, inferSpec, List.find?, hf]
      simpa [inferSpec] using ih

/-! ## Claim theorems -/

/-- C1: with the dedup toggle enabled, the collapser keeps exactly the last
occurrence of each distinct library-link token ("-l"-prefixed, exact string
equality), drops the earlier occurrences, leaves every non-library token in
its original relative order, and maps
["-o", "out.elf", "-lm", "-lfoo", "-lm"] to ["-o", "out.elf", "-lfoo", "-lm"]. -/
theorem dedup_keeps_last_occurrence :
    (∀ argsv : List String,
      collapser true argsv = lastOcc argsv
      ∧ (∀ a, startsWithS a "-l" = true → memS a argsv = true →
          countS a (collapser true argsv) = 1)
      ∧ filterNonLib (collapser true argsv) = filterNonLib argsv)
    ∧ collapser true ["-o", "out.elf", "-lm", "-lfoo", "-lm"]
        = ["-o", "out.elf", "-lfoo", "-lm"] := by
  have key : ∀ argsv : List String, collapser true argsv = lastOcc argsv :=
    fun argsv => dedup_eq_lastOcc argsv
  refine ⟨fun argsv => ⟨key argsv, ?_, ?_⟩, ?_⟩
  · intro a ha hm
    rw [key argsv]
    exact countS_lastOcc a argsv ha hm
  · rw [key argsv]
    exact filterNonLib_lastOcc argsv
  · rw [key]
    decide

/-- Witness for C1 at a concrete input. -/
theorem dedup_keeps_last_occurrence_wit :
    startsWithS "-lm" "-l" = true ∧ memS "-lm" ["-lm", "-lm"] = true
    ∧ countS "-lm" (collapser true ["-lm", "-lm"]) = 1 :=
  ⟨by decide, by decide,
    (dedup_keeps_last_occurrence.1 ["-lm", "-lm"]).2.1 "-lm" (by decide) (by decide)⟩

/-- C9: the duplicate-library collapser is idempotent. -/
theorem collapser_idempotent (argsv : List String) :
    collapser true (collapser true argsv) = collapser true argsv := by
  show dedup (dedup argsv) = dedup argsv
  rw [dedup_eq_lastOcc, dedup_eq_lastOcc, lastOcc_idem]

/-- C5: each raw argument starting with "@" and naming an existing file is
replaced by the tokenization of that file's contents, appended in order; an
"@" argument naming a missing path passes through unchanged; expansion is a
single level (the produced tokens are emitted verbatim, never re-inspected,
which the equality with the per-original-argument form expandSpec captures);
and a read error on an existing response file aborts the whole ingestion. -/
theorem args_expansion_one_level (exF : String → Bool)
    (rdF : String → Except String String) (tokF : String → List String) :
    (∀ argsv, expandArgs exF rdF tokF argsv = expandSpec exF rdF tokF argsv)
    ∧ (∀ a, startsWithS a "@" = false → expandArgs exF rdF tokF [a] = .ok [a])
    ∧ (∀ a, startsWithS a "@" = true → exF (dropS a 1) = false →
        expandArgs exF rdF tokF [a] = .ok [a])
    ∧ (∀ a c, startsWithS a "@" = true → exF (dropS a 1) = true →
        rdF (dropS a 1) = .ok c → expandArgs exF rdF tokF [a] = .ok (tokF c))
    ∧ (∀ argsv a e, memS a argsv = true → expandOne exF rdF tokF a = .error e →
        ∃ e2, expandArgs exF rdF tokF argsv = .error e2) := by
  refine ⟨expandArgs_eq_spec exF rdF tokF, ?_, ?_, ?_,
    fun argsv a e => expandArgs_error_of_mem exF rdF tokF argsv a e⟩
  · intro a h
    simp [expandArgs, h]
  · intro a h1 h2
    simp [expandArgs, h1, h2]
  · intro a c h1 h2 hr
    simp [expandArgs, h1, h2, hr]

/-- Witness for C5 at a concrete filesystem. -/
theorem args_expansion_one_level_wit :
    expandArgs (fun p => p == "rsp") (fun _ => Except.ok "lib.o")
        (fun c => [c, c]) ["@missing"] = .ok ["@missing"]
    ∧ expandArgs (fun p => p == "rsp") (fun _ => Except.ok "lib.o")
        (fun c => [c, c]) ["@rsp"] = .ok ["lib.o", "lib.o"] :=
  ⟨(args_expansion_one_level _ _ _).2.2.1 "@missing" (by decide) (by decide),
   (args_expansion_one_level _ _ _).2.2.2.1 "@rsp" "lib.o" (by decide) (by decide) rfl⟩

/-- C10: target-directory inference uses the first token containing both
"/target/" and "/deps/", truncated at the last occurrence of "/deps/"; when
no token matches, the side-channel merge stage leaves the token list and
the working directory unchanged, whatever the filesystem would answer. -/
theorem target_dir_inference :
    (∀ argsv, inferTargetDirLoop argsv = inferSpec argsv)
    ∧ (∀ argsv cwd readSide, inferTargetDirLoop argsv = none →
        mergeStage readSide argsv cwd = (argsv, cwd)) := by
  refine ⟨inferTargetDirLoop_eq_spec, ?_⟩
  intro argsv cwd readSide h
  unfold mergeStage
  rw [h]

/-- Witness for C10 at a concrete input. -/
theorem target_dir_inference_wit :
    mergeStage (fun _ => Except.error "io") ["foo"] none = (["foo"], none) :=
  target_dir_inference.2 ["foo"] none (fun _ => Except.error "io") (by decide)

/-- C7: a "--ldproxy-cwd" directive makes the payload of the next directive
line the working directory (whatever the skip state and any previously
recorded directory were), contributing nothing to the collected link
arguments; in main a working directory found in the side channel overrides
the one from the command-line flag; and the two-line file of the scenario
resolves the working directory to "/build/dir" with no extra link argument. -/
theorem cwd_marker_overrides :
    (∀ l1 l2 p rest skip wd,
      stripDirective l1 = some "--ldproxy-cwd" → stripDirective l2 = some p →
      p ≠ "--ldproxy-cwd" →
      goLines (l1 :: l2 :: rest) skip wd = goLines rest false (some p))
    ∧ (∀ argsv cwd ea w, mergeApply argsv cwd (.ok (ea, some w))
        = (if ea.isEmpty then argsv else argsv ++ ea, some w))
    ∧ processLines ["cargo:rustc-link-arg=--ldproxy-cwd", "cargo:rustc-link-arg=/build/dir"]
        = ([], some "/build/dir") := by
  refine ⟨?_, ?_, ?_⟩
  · intro l1 l2 p rest skip wd h1 h2 hp
    simp [goLines, h1, h2, hp]
  · intro argsv cwd ea w
    rfl
  · decide

/-- Witness for C7 at the scenario file. -/
theorem cwd_marker_overrides_wit :
    goLines ["cargo:rustc-link-arg=--ldproxy-cwd", "cargo:rustc-link-arg=/build/dir"]
        false none = goLines [] false (some "/build/dir") :=
  cwd_marker_overrides.1 "cargo:rustc-link-arg=--ldproxy-cwd"
    "cargo:rustc-link-arg=/build/dir" "/build/dir" [] false none
    (by decide) (by decide) (by decide)

/-- C3 evaluation: on a side-channel file consisting of the linker-path
marker directive followed by its payload, the parser does skip the payload
as a link argument, but it records the payload as the working directory
(the skip_next test precedes the "--ldproxy-linker" test in the source), and
the merge in main then adopts it as the working directory — contradicting
the claim that the payload changes no other merge result. -/
theorem linker_marker_payload_behavior :
    processLines ["cargo:rustc-link-arg=--ldproxy-linker", "cargo:rustc-link-arg=/usr/bin/ld"]
      = ([], some "/usr/bin/ld")
    ∧ (mergeApply ["crt0.o"] (some "/orig") (.ok ([], some "/usr/bin/ld"))).2
      = some "/usr/bin/ld" :=
  ⟨by decide, rfl⟩

/-- C2: a final token list of at most 500 tokens is passed to the linker
directly and in order with no response file; a longer list (when the write
succeeds) is written newline-joined to the temp file whose name embeds the
process identifier, and the linker receives the single argument "@" followed
by that path. -/
theorem invoker_response_file_policy (tempDir : String) (pid : Nat) (wOk : Bool)
    (spawn : Except String LinkerOut) (linkFail : Bool) (linker : String)
    (argsv : List String) :
    (argsv.length ≤ 500 →
      (invoke tempDir pid wOk spawn linkFail linker argsv).inv = .direct argsv
      ∧ (invoke tempDir pid wOk spawn linkFail linker argsv).written = none)
    ∧ (500 < argsv.length → wOk = true →
      (invoke tempDir pid wOk spawn linkFail linker argsv).inv
        = .viaFile ("@" ++ respFile tempDir pid)
      ∧ (invoke tempDir pid wOk spawn linkFail linker argsv).written
        = some (respContent argsv)
      ∧ respFile tempDir pid = tempDir ++ "/ldproxy-" ++ toString pid ++ ".rsp") := by
  constructor
  · intro h
    have h2 : ¬ 500 < argsv.length := Nat.not_lt.mpr h
    unfold invoke
    rw [if_neg h2]
    exact ⟨rfl, rfl⟩
  · intro h hw
    subst hw
    unfold invoke
    rw [if_pos h, if_pos rfl]
    exact ⟨rfl, rfl, rfl⟩

set_option maxRecDepth 4096 in
/-- Witness for C2 on both sides of the threshold. -/
theorem invoker_response_file_policy_wit :
    (invoke "/tmp" 9 true (Except.error "") false "ld" ["a.o"]).inv
      = Invocation.direct ["a.o"]
    ∧ (invoke "/tmp" 9 true (Except.error "") false "ld" (List.replicate 501 "a.o")).inv
      = Invocation.viaFile ("@" ++ respFile "/tmp" 9) :=
  ⟨((invoker_response_file_policy "/tmp" 9 true (Except.error "") false "ld"
      ["a.o"]).1 (by decide)).1,
   ((invoker_response_file_policy "/tmp" 9 true (Except.error "") false "ld"
      (List.replicate 501 "a.o")).2 (by decide) rfl).1⟩

set_option maxRecDepth 4096 in
/-- C4 counterexample: when the response file has been written and spawning
the linker itself fails, main's question mark on cmd.output() propagates
before the cleanup runs, so the invocation reports an error while the
response file still exists — the claim's removal on every outcome path is
false at this input. -/
theorem resp_file_leak_on_spawn_error :
    (invoke "/tmp" 7 true (Except.error "No such file or directory") false "ld"
        (List.replicate 501 "x")).written
      = some (respContent (List.replicate 501 "x"))
    ∧ (invoke "/tmp" 7 true (Except.error "No such file or directory") false "ld"
        (List.replicate 501 "x")).result
      = Except.error "No such file or directory"
    ∧ (invoke "/tmp" 7 true (Except.error "No such file or directory") false "ld"
        (List.replicate 501 "x")).fileLeft = true :=
  ⟨rfl, rfl, rfl⟩

/-- C4 amended: whenever the linker subprocess itself returns an output, the
response file no longer exists after the invocation — on linker success, on
linker non-success, and on a forced test failure alike; only a spawn error
(the linker binary could not be run at all) leaves a written file behind. -/
theorem resp_file_removed_after_subprocess (tempDir : String) (pid : Nat)
    (wOk : Bool) (out : LinkerOut) (linkFail : Bool) (linker : String)
    (argsv : List String) :
    (invoke tempDir pid wOk (Except.ok out) linkFail linker argsv).fileLeft = false := by
  unfold invoke
  split_ifs <;> rfl

/-- C8: given a completed linker subprocess, the invocation fails exactly
when the linker's exit status is non-success or the LDPROXY_LINK_FAIL
environment hook is set; and on non-success the surfaced message is exactly
the text embedding the status description and the full captured stderr. -/
theorem linker_failure_surfacing (tempDir : String) (pid : Nat) (wOk : Bool)
    (linkFail : Bool) (linker : String) (argsv : List String) (out : LinkerOut)
    (sd so se : String) :
    isErr (invoke tempDir pid wOk (Except.ok out) linkFail linker argsv).result
      = (!out.success || linkFail)
    ∧ (invoke tempDir pid wOk (Except.ok (LinkerOut.mk false sd so se))
        linkFail linker argsv).result
      = Except.error ("Linker " ++ linker ++ " failed: " ++ sd ++
          "\nSTDERR OUTPUT:\n" ++ se) := by
  have hres : ∀ (sp : Except String LinkerOut),
      (invoke tempDir pid wOk sp linkFail linker argsv).result
        = invokeResult linker sp linkFail := by
    intro sp
    unfold invoke
    split_ifs <;> rfl
  constructor
  · rw [hres]
    unfold invokeResult
    cases hs : out.success <;> cases linkFail <;> simp [isErr, hs]
  · rw [hres]
    rfl

/-- C6: the linker path is the flag's last value when one was given;
otherwise resolution walks the three target CC variables in order, then CC,
then the well-known linker basenames on PATH; and when nothing resolves the
run ends with the fatal configuration message naming the linker flag,
with no linker subprocess spawned. -/
theorem linker_resolution_order :
    (∀ vals envv pathHas, resolveLinker vals envv pathHas = specResolve vals envv pathHas)
    ∧ (∃ p q, missingLinkerMsg = p ++ ldproxyLinkerFlag ++ q)
    ∧ (∀ exF rdF tokF envv pathHas readSide tempDir pid wOk spawn linkFail rawArgs toks,
        expandArgs exF rdF tokF rawArgs = .ok toks →
        resolveLinker (extractFlags toks).linkerVals envv pathHas = none →
        runPipeline exF rdF tokF envv pathHas readSide tempDir pid wOk spawn
          linkFail rawArgs = ⟨false, .error missingLinkerMsg⟩) := by
  refine ⟨?_, ⟨"Cannot locate argument '",
    " <linker>' and no linker found in environment or PATH", rfl⟩, ?_⟩
  · intro vals envv pathHas
    unfold resolveLinker specResolve
    cases hv : vals.getLast? <;>
      cases h1 : envv "CC_riscv32imafc_esp_espidf" <;>
      cases h2 : envv "CC_riscv32imac_esp_espidf" <;>
      cases h3 : envv "CC_riscv32imc_esp_espidf" <;>
      cases h4 : envv "CC" <;>
      simp [targetCcVars, List.findSome?, h1, h2, h3, h4]
  · intro exF rdF tokF envv pathHas readSide tempDir pid wOk spawn linkFail
      rawArgs toks hexp hres
    simp [runPipeline, hexp, hres]

/-- Witness for C6: an environment with nothing set and no known linker on
PATH makes the whole run fail with the configuration message, unspawned. -/
theorem linker_resolution_order_wit :
    runPipeline (fun _ => false) (fun _ => Except.error "io") (fun _ => [])
        (fun _ => none) (fun _ => false) (fun _ => Except.error "side")
        "/tmp" 1 true (Except.error "spawn") false ["a.o"]
      = ⟨false, Except.error missingLinkerMsg⟩ :=
  linker_resolution_order.2.2 (fun _ => false) (fun _ => Except.error "io")
    (fun _ => []) (fun _ => none) (fun _ => false) (fun _ => Except.error "side")
    "/tmp" 1 true (Except.error "spawn") false ["a.o"] ["a.o"] rfl rfl
